import Mathlib

set_option maxRecDepth 200000

/-!
Shallow embedding of `src/compellent/delete_devices.py`.

The script's two phases are modelled as pure functions:
* `disk_associations` (the Topology Collector): consumes the textual output of
  the four host queries (`multipath -l -v 1`, `multipath -ll <alias>`,
  `findmnt`, `pvs`) and produces the device dictionary, whose reserved
  `"protected"` key holds the protected set.
* `delete_devices_resolution` (the Deletion Resolver, i.e. the resolution
  phase of `delete_devices`): sibling expansion, protection filtering and
  alias-to-member materialization.
* `flushAndDelete` (the Device Executor): the flush loop and the two
  control-file writes per disk.

Python sets are modelled as duplicate-free-by-construction `List String`
with membership-based operations; Python dicts as association lists with
first-match lookup and in-place replacement on key collision.  A query that
exits non-zero raises `CalledProcessError`, which the script catches (the
output variable keeps its initial empty-string value); a query whose tool is
absent raises `OSError`, which the script does not catch — this is modelled
by `QueryResult` and `queryOutput` returning `Except`.
-/

/-- Python 2 `re` character class `[a-zA-Z]` (ASCII). -/
def isAlphaCh (c : Char) : Bool :=
  (65 ≤ c.toNat && c.toNat ≤ 90) || (97 ≤ c.toNat && c.toNat ≤ 122)

/-- Python 2 `re` character class `\d` (ASCII digits). -/
def isDigitCh (c : Char) : Bool :=
  48 ≤ c.toNat && c.toNat ≤ 57

/-- Python 2 `re` character class `\w` = `[a-zA-Z0-9_]`. -/
def isWordCh (c : Char) : Bool :=
  isAlphaCh c || isDigitCh c || c.toNat = 95

/-- Python 2 `re` character class `\s` = space, tab, newline, CR, VT, FF. -/
def isSpaceCh (c : Char) : Bool :=
  c.toNat = 32 || c.toNat = 9 || c.toNat = 10 || c.toNat = 13 ||
    c.toNat = 11 || c.toNat = 12

/-- Python `str.strip()`: remove leading and trailing whitespace. -/
def stripChars (cs : List Char) : List Char :=
  ((cs.dropWhile isSpaceCh).reverse.dropWhile isSpaceCh).reverse

/-- Split a character list at newline characters (every piece, including a
final empty piece when the input ends in a newline). -/
def splitOnNl : List Char → List (List Char)
  | [] => [[]]
  | c :: rest =>
      match splitOnNl rest with
      | [] => [[c]]
      | l :: ls => if c = '\n' then [] :: l :: ls else (c :: l) :: ls

/-- Python `str.splitlines()`: like `splitOnNl` but with no empty final
piece when the string ends in a newline (`"".splitlines() == []`). -/
def splitlines (cs : List Char) : List (List Char) :=
  let ps := splitOnNl cs
  match ps.getLast? with
  | some [] => ps.dropLast
  | _ => ps

/-- Python set `add`. -/
def setAdd (s : List String) (x : String) : List String :=
  if x ∈ s then s else s ++ [x]

/-- Python set union `|`. -/
def setUnion (a b : List String) : List String :=
  a ++ b.filter (fun x => decide (x ∉ a))

/-- Python set intersection `&` (elements of the left set lying in the right
set). -/
def setInter (a b : List String) : List String :=
  a.filter (fun x => decide (x ∈ b))

/-- Python set difference `-`. -/
def setDiff (a b : List String) : List String :=
  a.filter (fun x => decide (x ∉ b))

/-- The device dictionary: alias name to member-disk set, plus the reserved
`"protected"` key. -/
abbrev DiskMap := List (String × List String)

/-- First-match association-list lookup (Python dict indexing). -/
def lookupMap : DiskMap → String → Option (List String)
  | [], _ => none
  | p :: rest, k => if p.1 = k then some p.2 else lookupMap rest k

/-- Python `key in dict`. -/
def mapHasKey (m : DiskMap) (k : String) : Bool :=
  (lookupMap m k).isSome

/-- Lookup with the empty set as default (used only at keys known to be
present). -/
def getD (m : DiskMap) (k : String) : List String :=
  (lookupMap m k).getD []

/-- Python `dict[k] = v`: replace the value at an existing key, else append
a new binding. -/
def dictInsert (m : DiskMap) (k : String) (v : List String) : DiskMap :=
  if mapHasKey m k then m.map (fun p => if p.1 = k then (k, v) else p)
  else m ++ [(k, v)]

/-- Python `dict.pop(k)`'s effect on the dictionary. -/
def dictErase (m : DiskMap) (k : String) : DiskMap :=
  m.filter (fun p => decide (p.1 ≠ k))

/-- Consume one or more characters of class `p` (regex `X+`), returning the
rest. -/
def munch1 (p : Char → Bool) (cs : List Char) : Option (List Char) :=
  match cs with
  | [] => none
  | c :: rest => if p c then some (rest.dropWhile p) else none

/-- Consume one expected character. -/
def expectChar (c : Char) : List Char → Option (List Char)
  | [] => none
  | x :: rest => if x = c then some rest else none

/-- Regex `` \s+[|`]-\s+\d+:\d+:\d+:\d+\s+(?P<disk>\w+)\s+\d+:\d+ ``
anchored at the start of a line (`re.match`), capturing the disk name. -/
def matchMultipathLine (line : List Char) : Option String := do
  let r ← munch1 isSpaceCh line
  let r ← (match r with
    | c :: rest => if c = '|' || c.toNat = 96 then some rest else none
    | [] => none)
  let r ← expectChar '-' r
  let r ← munch1 isSpaceCh r
  let r ← munch1 isDigitCh r
  let r ← expectChar ':' r
  let r ← munch1 isDigitCh r
  let r ← expectChar ':' r
  let r ← munch1 isDigitCh r
  let r ← expectChar ':' r
  let r ← munch1 isDigitCh r
  let r ← munch1 isSpaceCh r
  let disk := r.takeWhile isWordCh
  if disk = [] then none else
  let r := r.dropWhile isWordCh
  let r ← munch1 isSpaceCh r
  let r ← munch1 isDigitCh r
  let r ← expectChar ':' r
  let _ ← munch1 isDigitCh r
  some (String.mk disk)

/-- Regex `(/dev/(?!mapper)(?P<disk>[a-zA-Z]+)\d*)|(/dev/mapper/(?P<alias>\w+))`
anchored at the start (`re.match`): `Sum.inl` is the bare-device branch's
`disk` group, `Sum.inr` the device-mapper branch's `alias` group. -/
def matchMounted (cs : List Char) : Option (Sum String String) :=
  if cs.take 5 = "/dev/".data then
    let rest := cs.drop 5
    if rest.take 6 = "mapper".data then
      if rest.take 7 = "mapper/".data then
        let al := (rest.drop 7).takeWhile isWordCh
        if al = [] then none else some (Sum.inr (String.mk al))
      else none
    else
      let disk := rest.takeWhile isAlphaCh
      if disk = [] then none else some (Sum.inl (String.mk disk))
  else none

/-- Regex `/dev/(?P<disk>[a-zA-Z]+)\d*` anchored at the start, capturing the
`disk` group. -/
def matchLvm (cs : List Char) : Option String :=
  if cs.take 5 = "/dev/".data then
    let disk := (cs.drop 5).takeWhile isAlphaCh
    if disk = [] then none else some (String.mk disk)
  else none

/-- Outcome of one `subprocess.check_output` call: normal output, a caught
non-zero exit (`CalledProcessError`), or an uncaught `OSError` because the
query tool is absent. -/
inductive QueryResult where
  | ok (output : String)
  | exitError
  | toolAbsent
deriving DecidableEq

/-- The `try/except subprocess.CalledProcessError` wrapper around a query:
a non-zero exit leaves the output variable at its initial empty string, an
absent tool propagates the exception. -/
def queryOutput : QueryResult → Except Unit (List Char)
  | .ok s => .ok s.data
  | .exitError => .ok []
  | .toolAbsent => .error ()

/-- The four host queries `disk_associations` issues. -/
structure HostQueries where
  multipathList : QueryResult
  multipathDetail : String → QueryResult
  mounts : QueryResult
  pvsList : QueryResult

/-- The alias-listing loop of `disk_associations`: for each line of
`multipath -l -v 1` output, reset the alias's entry, query its detail and
collect every constituent-path line's disk name. -/
def collectAliases (detail : String → Except Unit (List Char)) :
    List (List Char) → DiskMap → Except Unit DiskMap
  | [], m => .ok m
  | line :: rest, m =>
      let dev := String.mk (stripChars line)
      let m1 := dictInsert m dev []
      match detail dev with
      | .error e => .error e
      | .ok info =>
          let members := (splitlines info).foldl (fun acc l =>
            match matchMultipathLine l with
            | some d => setAdd acc d
            | none => acc) []
          collectAliases detail rest (dictInsert m1 dev members)

/-- One line of the mounted-filesystem loop: a bare-device source protects
the extracted disk name; a mapper source protects the alias name and, when
the alias is a key of the dictionary, also its member disks. -/
def processMount (m : DiskMap) (line : List Char) : DiskMap :=
  match matchMounted (stripChars line) with
  | some (Sum.inl disk) =>
      dictInsert m "protected" (setAdd (getD m "protected") disk)
  | some (Sum.inr al) =>
      let m1 := dictInsert m "protected" (setAdd (getD m "protected") al)
      if mapHasKey m1 al then
        dictInsert m1 "protected" (setUnion (getD m1 "protected") (getD m1 al))
      else m1
  | none => m

/-- One line of the LVM physical-volume loop. -/
def processPv (m : DiskMap) (line : List Char) : DiskMap :=
  match matchLvm (stripChars line) with
  | some disk =>
      dictInsert m "protected" (setAdd (getD m "protected") disk)
  | none => m

/-- Body of `disk_associations` over already-run queries: alias listing and
per-alias detail, then the `"protected"` key is (re)set to the empty set,
then the mount and physical-volume loops fill it. -/
def disk_associationsAux (mp : Except Unit (List Char))
    (detail : String → Except Unit (List Char))
    (mounts pvsOut : Except Unit (List Char)) : Except Unit DiskMap :=
  match mp with
  | .error e => .error e
  | .ok mpS =>
      match collectAliases detail (splitlines mpS) [] with
      | .error e => .error e
      | .ok m0 =>
          let m1 := dictInsert m0 "protected" []
          match mounts with
          | .error e => .error e
          | .ok mntS =>
              let m2 := (splitlines mntS).foldl processMount m1
              match pvsOut with
              | .error e => .error e
              | .ok pvS => .ok ((splitlines pvS).foldl processPv m2)

/-- The Topology Collector `disk_associations`, as a function of the host
queries' outcomes. -/
def disk_associations (q : HostQueries) : Except Unit DiskMap :=
  disk_associationsAux (queryOutput q.multipathList)
    (fun d => queryOutput (q.multipathDetail d))
    (queryOutput q.mounts) (queryOutput q.pvsList)

/-- The protected set a collector run produced (the `"protected"` entry). -/
def protectedOf (e : Except Unit DiskMap) : List String :=
  match e with
  | .ok m => getD m "protected"
  | .error _ => []

/-- The relationship map the Resolver sees: the collector's dictionary with
the `"protected"` entry popped. -/
def resolverMap (e : Except Unit DiskMap) : DiskMap :=
  match e with
  | .ok m => dictErase m "protected"
  | .error _ => []

/-- Verbose messages the Resolver prints: a sibling-expansion notice per
(disk, alias) hit, and the refusal message listing the blocked devices. -/
inductive Warning where
  | expansion (disk al : String)
  | blocked (devs : List String)
deriving DecidableEq

/-- The ResolvedDeletionSet plus the verbose messages emitted on the way. -/
structure Resolved where
  disks : List String
  aliases : List String
  warnings : List Warning
deriving DecidableEq

/-- Body of the sibling-expansion inner loop (`for group in device_groups`):
when the disk is a member of the group, add the group to the aliases, union
the group's disks in, and print the expansion notice when verbose. -/
def expandStep (verbose : Bool) (disk : String)
    (st : List String × List String × List Warning) (p : String × List String) :
    List String × List String × List Warning :=
  if disk ∈ p.2 then
    (setUnion st.1 p.2, setAdd st.2.1 p.1,
      st.2.2 ++ (if verbose then [Warning.expansion disk p.1] else []))
  else st

/-- The sibling-expansion inner loop over the whole device dictionary. -/
def expandOne (dg : DiskMap) (verbose : Bool)
    (st : List String × List String × List Warning) (disk : String) :
    List String × List String × List Warning :=
  dg.foldl (expandStep verbose disk) st

/-- Sibling expansion (`for disk in list(disks)`): the outer loop iterates
over a snapshot of the requested disks while the state grows. -/
def expandSiblings (dg : DiskMap) (verbose : Bool)
    (disks aliases : List String) :
    List String × List String × List Warning :=
  disks.foldl (expandOne dg verbose) (disks, aliases, [])

/-- The protection check: when the blocked set is non-empty, print the
refusal message (when verbose) and strip every protected identifier from
both requested sets. -/
def filterProtected (protSet : List String) (verbose : Bool)
    (disks aliases : List String) (ws : List Warning) :
    List String × List String × List Warning :=
  let blocked := setUnion (setInter protSet disks) (setInter protSet aliases)
  if blocked.isEmpty then (disks, aliases, ws)
  else
    (setDiff disks protSet, setDiff aliases protSet,
      ws ++ (if verbose then [Warning.blocked blocked] else []))

/-- Alias-to-member materialization (`for alias in aliases: disks |=
device_groups[alias]`): an alias missing from the dictionary raises an
uncaught `KeyError`. -/
def materializeAliases (dg : DiskMap) : List String → List String →
    Except Unit (List String)
  | [], disks => .ok disks
  | a :: rest, disks =>
      match lookupMap dg a with
      | some mem => materializeAliases dg rest (setUnion disks mem)
      | none => .error ()

/-- State of the request after sibling expansion. -/
def resolveExpanded (dg : DiskMap) (verbose : Bool)
    (disks aliases : List String) :
    List String × List String × List Warning :=
  expandSiblings dg verbose disks aliases

/-- State of the request after the protection-filtering step. -/
def resolvePostFilter (dg : DiskMap) (protSet : List String) (verbose : Bool)
    (disks aliases : List String) :
    List String × List String × List Warning :=
  filterProtected protSet verbose (resolveExpanded dg verbose disks aliases).1
    (resolveExpanded dg verbose disks aliases).2.1
    (resolveExpanded dg verbose disks aliases).2.2

/-- The Deletion Resolver: sibling expansion, protection filtering, then
alias-to-member materialization. -/
def resolve (dg : DiskMap) (protSet : List String) (verbose : Bool)
    (disks aliases : List String) : Except Unit Resolved :=
  match materializeAliases dg (resolvePostFilter dg protSet verbose disks aliases).2.1
      (resolvePostFilter dg protSet verbose disks aliases).1 with
  | .ok d3 =>
      .ok ⟨d3, (resolvePostFilter dg protSet verbose disks aliases).2.1,
        (resolvePostFilter dg protSet verbose disks aliases).2.2⟩
  | .error e => .error e

/-- The resolution phase of `delete_devices`: run the collector, pop the
`"protected"` entry as the protected set, and resolve the request against
the remaining dictionary. -/
def delete_devices_resolution (q : HostQueries) (verbose : Bool)
    (disks aliases : List String) : Except Unit Resolved :=
  match disk_associations q with
  | .error e => .error e
  | .ok dgm => resolve (dictErase dgm "protected") (getD dgm "protected")
      verbose disks aliases

/-- Outcomes of the Device Executor's per-device actions: the exit code of
`multipath -f <alias>` and whether each of the two control-file writes
(`state=offline`, `delete=1`) succeeds for a disk. -/
structure ExecEnv where
  flushExit : String → Int
  writeState : String → Bool
  writeDelete : String → Bool

/-- The flush loop: every alias is attempted; a non-zero exit only prints an
error message.  Returns the aliases whose flush was reported as failed. -/
def flushAliases (env : ExecEnv) (als : List String) : List String :=
  als.filter (fun a => decide (env.flushExit a ≠ 0))

/-- The disk-deletion loop: for each disk write `offline` to its state file
then `1` to its delete file; a failed write raises an uncaught `IOError`,
aborting the loop at that disk.  Returns the disks fully processed. -/
def deleteDisks (env : ExecEnv) : List String → List String →
    Except String (List String)
  | [], done => .ok done
  | d :: rest, done =>
      if env.writeState d then
        if env.writeDelete d then deleteDisks env rest (done ++ [d])
        else .error d
      else .error d

/-- The Device Executor body: flush every alias, then delete every disk. -/
def flushAndDelete (env : ExecEnv) (als ds : List String) :
    Except String (List String × List String) :=
  match deleteDisks env ds [] with
  | .ok done => .ok (flushAliases env als, done)
  | .error d => .error d

/-- Final disk set of a resolution outcome (empty on failure). -/
def disksOf (e : Except Unit Resolved) : List String :=
  match e with
  | .ok r => r.disks
  | .error _ => []

/-- Final alias set of a resolution outcome (empty on failure). -/
def aliasesOf (e : Except Unit Resolved) : List String :=
  match e with
  | .ok r => r.aliases
  | .error _ => []

/-- Replace a caught non-zero exit by empty output, leaving normal output
and the uncaught tool-absent outcome unchanged. -/
def normalizeQR : QueryResult → QueryResult
  | .exitError => .ok ""
  | r => r

/-- Normalize every query of a host. -/
def normalizeQueries (q : HostQueries) : HostQueries :=
  ⟨normalizeQR q.multipathList, fun d => normalizeQR (q.multipathDetail d),
    normalizeQR q.mounts, normalizeQR q.pvsList⟩

/-- Sample `multipath -ll testvol2` output: alias `testvol2` with member
paths `sdg`, `sdi`, `sdh`, `sdj`. -/
def detailTestvol2 : String :=
  "testvol2 dm-3 COMPELNT\nsize=20G\n`-+- policy=rr\n  |- 34:0:0:1 sdg 8:96 active\n  |- 39:0:0:1 sdi 8:128 active\n  |- 36:0:0:1 sdh 8:112 active\n  `- 40:0:0:1 sdj 8:144 active\n"

/-- Host where multipath knows `testvol2` = {sdg, sdi, sdh, sdj}, nothing
is mounted, and `pvs` reports `/dev/sdh1` (so disk `sdh` is an LVM physical
volume and therefore protected while the alias `testvol2` is not). -/
def qC1 : HostQueries :=
  ⟨.ok "testvol2\n",
   fun d => if d = "testvol2" then .ok detailTestvol2 else .exitError,
   .ok "", .ok "  /dev/sdh1\n"⟩

/-- Host where multipath knows `testvol2` = {sdg, sdi, sdh, sdj} and the
mount table lists `/dev/mapper/testvol2`. -/
def qC4 : HostQueries :=
  ⟨.ok "testvol2\n",
   fun d => if d = "testvol2" then .ok detailTestvol2 else .exitError,
   .ok "/dev/mapper/testvol2\n", .exitError⟩

/-- Host with no multipath and the mount table listing `/dev/sda2`. -/
def qC5 : HostQueries :=
  ⟨.exitError, fun _ => .exitError, .ok "/dev/sda2\n", .exitError⟩

/-- Host with no multipath and the mount table listing `/dev/mappers1`: a
bare block device named `mappers` with partition number `1`. -/
def qC5bad : HostQueries :=
  ⟨.exitError, fun _ => .exitError, .ok "/dev/mappers1\n", .exitError⟩

/-- Host where a multipath alias is literally named `protected`, with
member paths `sdx` and `sdy`, and `/dev/sda2` is mounted. -/
def qC10 : HostQueries :=
  ⟨.ok "protected\n",
   fun d => if d = "protected"
     then .ok "  |- 34:0:0:5 sdx 8:96 active\n  |- 34:0:0:6 sdy 8:112 active\n"
     else .exitError,
   .ok "/dev/sda2\n", .exitError⟩

/-- Host where every query tool is present but exits non-zero. -/
def qEmptyHost : HostQueries :=
  ⟨.exitError, fun _ => .exitError, .exitError, .exitError⟩

/-- Host whose multipath tool is absent (its invocation raises `OSError`). -/
def qAbsent : HostQueries :=
  ⟨.toolAbsent, fun _ => .exitError, .exitError, .exitError⟩

/-- Relationship map with the single alias `testvol2` = {sdg, sdh, sdi,
sdj}. -/
def dgEx : DiskMap := [("testvol2", ["sdg", "sdh", "sdi", "sdj"])]

/-- Relationship map with the single alias `testvol1` = {sda, sdb}. -/
def dgC3 : DiskMap := [("testvol1", ["sda", "sdb"])]

/-- Protected set of a host where `testvol1` is mounted: the alias and its
member disks. -/
def protC3 : List String := ["testvol1", "sda", "sdb"]

/-- Executor environment where flushing `mpA` fails (exit code 1) and every
control-file write succeeds. -/
def envFlushFail : ExecEnv :=
  ⟨fun a => if a = "mpA" then 1 else 0, fun _ => true, fun _ => true⟩

/-- Executor environment where the control-file writes for disk `sdb`
fail. -/
def envWriteFail : ExecEnv :=
  ⟨fun _ => 0, fun d => decide (d ≠ "sdb"), fun _ => true⟩

/-- Success flag of a collector run. -/
def collectorOk (e : Except Unit DiskMap) : Bool :=
  match e with
  | .ok _ => true
  | .error _ => false

/-- Success flag of a resolution run. -/
def resolveOk (e : Except Unit Resolved) : Bool :=
  match e with
  | .ok _ => true
  | .error _ => false

/-! ### Membership lemmas for the set operations -/

theorem mem_setAdd {s : List String} {x y : String} :
    y ∈ setAdd s x ↔ y ∈ s ∨ y = x := by
  by_cases h : x ∈ s
  · simp only [setAdd, if_pos h]
    exact ⟨Or.inl, fun hy => hy.elim id (fun e => e ▸ h)⟩
  · simp [setAdd, if_neg h]

theorem mem_setUnion {a b : List String} {y : String} :
    y ∈ setUnion a b ↔ y ∈ a ∨ y ∈ b := by
  simp only [setUnion, List.mem_append, List.mem_filter, decide_eq_true_eq]
  tauto

theorem mem_setInter {a b : List String} {y : String} :
    y ∈ setInter a b ↔ y ∈ a ∧ y ∈ b := by
  simp [setInter, List.mem_filter]

theorem mem_setDiff {a b : List String} {y : String} :
    y ∈ setDiff a b ↔ y ∈ a ∧ y ∉ b := by
  simp [setDiff, List.mem_filter]

/-! ### Association-list lemmas -/

theorem lookupMap_mem (m : DiskMap) : ∀ k v, lookupMap m k = some v → (k, v) ∈ m := by
  induction m with
  | nil => intro k v h; simp [lookupMap] at h
  | cons p rest ih =>
      intro k v h
      obtain ⟨k', v'⟩ := p
      by_cases hk : k' = k
      · subst hk
        simp only [lookupMap, if_pos rfl] at h
        cases h
        exact List.mem_cons_self _ _
      · simp only [lookupMap, if_neg hk] at h
        exact List.mem_cons_of_mem _ (ih k v h)

theorem lookupMap_isSome_of_key (m : DiskMap) :
    ∀ k v, (k, v) ∈ m → (lookupMap m k).isSome := by
  induction m with
  | nil => intro k v h; simp at h
  | cons p rest ih =>
      intro k v h
      obtain ⟨k', v'⟩ := p
      by_cases hk : k' = k
      · subst hk; simp [lookupMap]
      · simp only [lookupMap, if_neg hk]
        rcases List.mem_cons.mp h with he | hm
        · exact absurd (congrArg Prod.fst he).symm hk
        · exact ih k v hm

theorem lookupMap_append (m1 m2 : DiskMap) (k : String) :
    lookupMap (m1 ++ m2) k =
      match lookupMap m1 k with
      | some v => some v
      | none => lookupMap m2 k := by
  induction m1 with
  | nil => simp [lookupMap]
  | cons p rest ih =>
      by_cases hp : p.1 = k
      · simp [lookupMap, hp]
      · simp only [List.cons_append, lookupMap, if_neg hp]
        exact ih

theorem lookupMap_mapReplace (m : DiskMap) (k : String) (v : List String) :
    mapHasKey m k = true →
    lookupMap (m.map (fun p => if p.1 = k then (k, v) else p)) k = some v := by
  induction m with
  | nil => intro h; simp [mapHasKey, lookupMap] at h
  | cons p rest ih =>
      intro h
      by_cases hp : p.1 = k
      · simp [lookupMap, hp]
      · simp only [List.map_cons, if_neg hp, lookupMap]
        apply ih
        simpa [mapHasKey, lookupMap, if_neg hp] using h

theorem lookupMap_mapReplace_other (m : DiskMap) (k k' : String) (v : List String)
    (hne : k' ≠ k) :
    lookupMap (m.map (fun p => if p.1 = k then (k, v) else p)) k' =
      lookupMap m k' := by
  induction m with
  | nil => simp [lookupMap]
  | cons p rest ih =>
      by_cases hp : p.1 = k
      · simp only [List.map_cons, if_pos hp, lookupMap]
        rw [if_neg (fun e => hne e.symm), if_neg (hp ▸ (fun e => hne e.symm))]
        exact ih
      · simp only [List.map_cons, if_neg hp, lookupMap]
        by_cases hp' : p.1 = k'
        · rw [if_pos hp', if_pos hp']
        · rw [if_neg hp', if_neg hp']
          exact ih

theorem lookupMap_dictInsert_self (m : DiskMap) (k : String) (v : List String) :
    lookupMap (dictInsert m k v) k = some v := by
  unfold dictInsert
  by_cases h : mapHasKey m k = true
  · rw [if_pos h]; exact lookupMap_mapReplace m k v h
  · rw [if_neg h, lookupMap_append]
    have hn : lookupMap m k = none := by
      cases hl : lookupMap m k with
      | none => rfl
      | some w => exact absurd (by simp [mapHasKey, hl]) h
    simp [hn, lookupMap]

theorem lookupMap_dictInsert_other (m : DiskMap) (k k' : String) (v : List String)
    (hne : k' ≠ k) : lookupMap (dictInsert m k v) k' = lookupMap m k' := by
  unfold dictInsert
  by_cases h : mapHasKey m k = true
  · rw [if_pos h]
    exact lookupMap_mapReplace_other m k k' v hne
  · rw [if_neg h, lookupMap_append]
    cases hl : lookupMap m k' with
    | some w => rfl
    | none => simp [lookupMap, hne.symm]

theorem getD_dictInsert_self (m : DiskMap) (k : String) (v : List String) :
    getD (dictInsert m k v) k = v := by
  simp [getD, lookupMap_dictInsert_self]

theorem getD_dictInsert_other (m : DiskMap) (k k' : String) (v : List String)
    (hne : k' ≠ k) : getD (dictInsert m k v) k' = getD m k' := by
  simp [getD, lookupMap_dictInsert_other m k k' v hne]

/-! ### Lemmas about the Resolver's phases -/

theorem expandOne_mono_disks (dg : DiskMap) (v : Bool) (disk : String) :
    ∀ (st : List String × List String × List Warning) (x : String),
    x ∈ st.1 → x ∈ (dg.foldl (expandStep v disk) st).1 := by
  induction dg with
  | nil => intro st x hx; exact hx
  | cons p rest ih =>
      intro st x hx
      simp only [List.foldl_cons]
      apply ih
      unfold expandStep
      by_cases hd : disk ∈ p.2
      · rw [if_pos hd]; exact mem_setUnion.mpr (Or.inl hx)
      · rw [if_neg hd]; exact hx

theorem expandOne_mono_aliases (dg : DiskMap) (v : Bool) (disk : String) :
    ∀ (st : List String × List String × List Warning) (x : String),
    x ∈ st.2.1 → x ∈ (dg.foldl (expandStep v disk) st).2.1 := by
  induction dg with
  | nil => intro st x hx; exact hx
  | cons p rest ih =>
      intro st x hx
      simp only [List.foldl_cons]
      apply ih
      unfold expandStep
      by_cases hd : disk ∈ p.2
      · rw [if_pos hd]; exact mem_setAdd.mpr (Or.inl hx)
      · rw [if_neg hd]; exact hx

theorem expandOne_hit (dg : DiskMap) (v : Bool) (disk : String) :
    ∀ (st : List String × List String × List Warning) (p : String × List String),
    p ∈ dg → disk ∈ p.2 →
    p.1 ∈ (dg.foldl (expandStep v disk) st).2.1 ∧
      ∀ x ∈ p.2, x ∈ (dg.foldl (expandStep v disk) st).1 := by
  induction dg with
  | nil => intro st p hp; simp at hp
  | cons q rest ih =>
      intro st p hp hd
      rcases List.mem_cons.mp hp with he | hm
      · subst he
        simp only [List.foldl_cons]
        constructor
        · apply expandOne_mono_aliases
          unfold expandStep
          rw [if_pos hd]
          exact mem_setAdd.mpr (Or.inr rfl)
        · intro x hx
          apply expandOne_mono_disks
          unfold expandStep
          rw [if_pos hd]
          exact mem_setUnion.mpr (Or.inr hx)
      · simp only [List.foldl_cons]
        exact ih _ p hm hd

theorem expandOne_keys (dg : DiskMap) (v : Bool) (disk : String) :
    ∀ (st : List String × List String × List Warning) (x : String),
    x ∈ (dg.foldl (expandStep v disk) st).2.1 →
    x ∈ st.2.1 ∨ ∃ p ∈ dg, p.1 = x := by
  induction dg with
  | nil => intro st x hx; exact Or.inl hx
  | cons q rest ih =>
      intro st x hx
      simp only [List.foldl_cons] at hx
      rcases ih _ x hx with hst | ⟨p, hp, he⟩
      · unfold expandStep at hst
        by_cases hd : disk ∈ q.2
        · rw [if_pos hd] at hst
          rcases mem_setAdd.mp hst with h0 | h0
          · exact Or.inl h0
          · exact Or.inr ⟨q, List.mem_cons_self _ _, h0.symm⟩
        · rw [if_neg hd] at hst
          exact Or.inl hst
      · exact Or.inr ⟨p, List.mem_cons_of_mem _ hp, he⟩

theorem expandSiblings_mono_disks (dg : DiskMap) (v : Bool) :
    ∀ (ds : List String) (st : List String × List String × List Warning)
      (x : String),
    x ∈ st.1 → x ∈ (ds.foldl (expandOne dg v) st).1 := by
  intro ds
  induction ds with
  | nil => intro st x hx; exact hx
  | cons d rest ih =>
      intro st x hx
      simp only [List.foldl_cons]
      exact ih _ x (expandOne_mono_disks dg v d st x hx)

theorem expandSiblings_mono_aliases (dg : DiskMap) (v : Bool) :
    ∀ (ds : List String) (st : List String × List String × List Warning)
      (x : String),
    x ∈ st.2.1 → x ∈ (ds.foldl (expandOne dg v) st).2.1 := by
  intro ds
  induction ds with
  | nil => intro st x hx; exact hx
  | cons d rest ih =>
      intro st x hx
      simp only [List.foldl_cons]
      exact ih _ x (expandOne_mono_aliases dg v d st x hx)

theorem expandSiblings_hit (dg : DiskMap) (v : Bool) :
    ∀ (ds : List String) (st : List String × List String × List Warning)
      (d : String) (p : String × List String),
    d ∈ ds → p ∈ dg → d ∈ p.2 →
    p.1 ∈ (ds.foldl (expandOne dg v) st).2.1 ∧
      ∀ x ∈ p.2, x ∈ (ds.foldl (expandOne dg v) st).1 := by
  intro ds
  induction ds with
  | nil => intro st d p hd; simp at hd
  | cons d0 rest ih =>
      intro st d p hd hp hmem
      rcases List.mem_cons.mp hd with he | hm
      · subst he
        simp only [List.foldl_cons]
        have h0 := expandOne_hit dg v d st p hp hmem
        exact ⟨expandSiblings_mono_aliases dg v rest _ _ h0.1,
          fun x hx => expandSiblings_mono_disks dg v rest _ _ (h0.2 x hx)⟩
      · simp only [List.foldl_cons]
        exact ih _ d p hm hp hmem

theorem expandSiblings_keys (dg : DiskMap) (v : Bool) :
    ∀ (ds : List String) (st : List String × List String × List Warning)
      (x : String),
    x ∈ (ds.foldl (expandOne dg v) st).2.1 →
    x ∈ st.2.1 ∨ ∃ p ∈ dg, p.1 = x := by
  intro ds
  induction ds with
  | nil => intro st x hx; exact Or.inl hx
  | cons d rest ih =>
      intro st x hx
      simp only [List.foldl_cons] at hx
      rcases ih _ x hx with h0 | h0
      · exact expandOne_keys dg v d st x h0
      · exact Or.inr h0

theorem filterProtected_aliases_of_not_prot (protSet : List String) (v : Bool)
    (ds as : List String) (ws : List Warning) (x : String)
    (hx : x ∈ as) (hnp : x ∉ protSet) :
    x ∈ (filterProtected protSet v ds as ws).2.1 := by
  unfold filterProtected
  by_cases hb : (setUnion (setInter protSet ds) (setInter protSet as)).isEmpty
  · rw [if_pos hb]; exact hx
  · rw [if_neg hb]; exact mem_setDiff.mpr ⟨hx, hnp⟩

theorem filterProtected_aliases_subset (protSet : List String) (v : Bool)
    (ds as : List String) (ws : List Warning) (x : String)
    (hx : x ∈ (filterProtected protSet v ds as ws).2.1) : x ∈ as := by
  unfold filterProtected at hx
  by_cases hb : (setUnion (setInter protSet ds) (setInter protSet as)).isEmpty
  · rw [if_pos hb] at hx; exact hx
  · rw [if_neg hb] at hx; exact (mem_setDiff.mp hx).1

theorem filterProtected_removes (protSet : List String) (v : Bool)
    (ds as : List String) (ws : List Warning) (x : String)
    (hx : x ∈ setUnion (setInter protSet ds) (setInter protSet as)) :
    x ∉ (filterProtected protSet v ds as ws).1 ∧
      x ∉ (filterProtected protSet v ds as ws).2.1 := by
  have hxp : x ∈ protSet := by
    rcases mem_setUnion.mp hx with h0 | h0
    · exact (mem_setInter.mp h0).1
    · exact (mem_setInter.mp h0).1
  have hb : ¬(setUnion (setInter protSet ds) (setInter protSet as)).isEmpty := by
    intro he
    rw [List.isEmpty_iff] at he
    rw [he] at hx
    simp at hx
  unfold filterProtected
  rw [if_neg hb]
  exact ⟨fun hc => (mem_setDiff.mp hc).2 hxp, fun hc => (mem_setDiff.mp hc).2 hxp⟩

theorem filterProtected_warns (protSet : List String)
    (ds as : List String) (ws : List Warning)
    (hb : ¬(setUnion (setInter protSet ds) (setInter protSet as)).isEmpty) :
    Warning.blocked (setUnion (setInter protSet ds) (setInter protSet as)) ∈
      (filterProtected protSet true ds as ws).2.2 := by
  unfold filterProtected
  rw [if_neg hb]
  simp

theorem materialize_mono (dg : DiskMap) :
    ∀ (as d d' : List String), materializeAliases dg as d = .ok d' →
    ∀ x ∈ d, x ∈ d' := by
  intro as
  induction as with
  | nil =>
      intro d d' h x hx
      cases h
      exact hx
  | cons a rest ih =>
      intro d d' h x hx
      cases hl : lookupMap dg a with
      | none => simp [materializeAliases, hl] at h
      | some mem =>
          simp only [materializeAliases, hl] at h
          exact ih _ _ h x (mem_setUnion.mpr (Or.inl hx))

theorem materialize_lookup (dg : DiskMap) :
    ∀ (as d d' : List String), materializeAliases dg as d = .ok d' →
    ∀ a ∈ as, ∃ mem, lookupMap dg a = some mem ∧ ∀ x ∈ mem, x ∈ d' := by
  intro as
  induction as with
  | nil => intro d d' h a ha; simp at ha
  | cons b rest ih =>
      intro d d' h a ha
      cases hl : lookupMap dg b with
      | none => simp [materializeAliases, hl] at h
      | some mem =>
          simp only [materializeAliases, hl] at h
          rcases List.mem_cons.mp ha with he | hm
          · subst he
            exact ⟨mem, hl, fun x hx =>
              materialize_mono dg rest _ _ h x (mem_setUnion.mpr (Or.inr hx))⟩
          · exact ih _ _ h a hm

theorem materialize_total (dg : DiskMap) :
    ∀ (as d : List String), (∀ a ∈ as, (lookupMap dg a).isSome) →
    ∃ d', materializeAliases dg as d = .ok d' := by
  intro as
  induction as with
  | nil => intro d _; exact ⟨d, rfl⟩
  | cons b rest ih =>
      intro d hall
      cases hl : lookupMap dg b with
      | none =>
          have := hall b (List.mem_cons_self _ _)
          rw [hl] at this
          cases this
      | some mem =>
          rcases ih (setUnion d mem) (fun a ha => hall a (List.mem_cons_of_mem _ ha))
            with ⟨d', hd'⟩
          exact ⟨d', by simp only [materializeAliases, hl]; exact hd'⟩

/-! ### Character-class and parsing lemmas -/

theorem alpha_not_space {c : Char} (h : isAlphaCh c = true) :
    isSpaceCh c = false := by
  simp only [isAlphaCh, Bool.or_eq_true, Bool.and_eq_true, decide_eq_true_eq] at h
  simp only [isSpaceCh, Bool.or_eq_false_iff, decide_eq_false_iff_not]
  omega

theorem digit_not_space {c : Char} (h : isDigitCh c = true) :
    isSpaceCh c = false := by
  simp only [isDigitCh, Bool.and_eq_true, decide_eq_true_eq] at h
  simp only [isSpaceCh, Bool.or_eq_false_iff, decide_eq_false_iff_not]
  omega

theorem digit_not_alpha {c : Char} (h : isDigitCh c = true) :
    isAlphaCh c = false := by
  simp only [isDigitCh, Bool.and_eq_true, decide_eq_true_eq] at h
  simp only [isAlphaCh, Bool.or_eq_false_iff, Bool.and_eq_false_iff,
    decide_eq_false_iff_not]
  omega

theorem dropWhile_all_false {p : Char → Bool} {cs : List Char}
    (h : ∀ c ∈ cs, p c = false) : cs.dropWhile p = cs := by
  cases cs with
  | nil => rfl
  | cons c rest => simp [List.dropWhile_cons, h c (List.mem_cons_self c rest)]

theorem stripChars_id {cs : List Char} (h : ∀ c ∈ cs, isSpaceCh c = false) :
    stripChars cs = cs := by
  unfold stripChars
  rw [dropWhile_all_false h,
    dropWhile_all_false (fun c hc => h c (List.mem_reverse.mp hc)),
    List.reverse_reverse]

theorem takeWhile_app {p : Char → Bool} :
    ∀ (xs ys : List Char), (∀ c ∈ xs, p c = true) → (∀ c ∈ ys, p c = false) →
    (xs ++ ys).takeWhile p = xs := by
  intro xs
  induction xs with
  | nil =>
      intro ys _ hy
      cases ys with
      | nil => rfl
      | cons y ys' => simp [List.takeWhile_cons, hy y (List.mem_cons_self _ _)]
  | cons x xs' ih =>
      intro ys hx hy
      simp only [List.cons_append, List.takeWhile_cons,
        hx x (List.mem_cons_self _ _), if_true]
      rw [ih ys (fun c hc => hx c (List.mem_cons_of_mem _ hc)) hy]

/-! ### Query-outcome lemmas -/

theorem queryOutput_normalize (r : QueryResult) :
    queryOutput (normalizeQR r) = queryOutput r := by
  cases r <;> rfl

theorem queryOutput_ok_of_ne {r : QueryResult} (h : r ≠ QueryResult.toolAbsent) :
    ∃ s, queryOutput r = .ok s := by
  cases r with
  | ok s => exact ⟨s.data, rfl⟩
  | exitError => exact ⟨[], rfl⟩
  | toolAbsent => exact absurd rfl h

theorem collectAliases_total (detail : String → Except Unit (List Char))
    (hd : ∀ dev, ∃ s, detail dev = Except.ok s) :
    ∀ (lines : List (List Char)) (m : DiskMap),
    ∃ m', collectAliases detail lines m = .ok m' := by
  intro lines
  induction lines with
  | nil => intro m; exact ⟨m, rfl⟩
  | cons line rest ih =>
      intro m
      obtain ⟨s, hs⟩ := hd (String.mk (stripChars line))
      simp only [collectAliases, hs]
      exact ih _

theorem deleteDisks_total (env : ExecEnv) :
    ∀ (ds done : List String),
    (∀ d ∈ ds, env.writeState d = true ∧ env.writeDelete d = true) →
    deleteDisks env ds done = .ok (done ++ ds) := by
  intro ds
  induction ds with
  | nil => intro done _; simp [deleteDisks]
  | cons d rest ih =>
      intro done h
      have hd := h d (List.mem_cons_self _ _)
      simp only [deleteDisks, hd.1, hd.2, if_true]
      rw [ih (done ++ [d]) (fun x hx => h x (List.mem_cons_of_mem _ hx))]
      simp

/-! ### Claim theorems -/

/-- C1: the protection invariant — "no run of the Resolver ever returns a
protected device P in its final disk or alias set" — fails on the code.  On
the host `qC1` (alias `testvol2` = {sdg, sdi, sdh, sdj}, nothing mounted,
`pvs` listing `/dev/sdh1`), the collector protects exactly `sdh`, yet
resolving the request for disk `sdg` returns a final disk set containing
the protected `sdh`: the alias-to-member materialization step re-adds an
unprotected alias's protected members after the protection filter.  This
contradicts the script's own docstring ("will refuse to delete ... any
block device in an LVM configuration"). -/
theorem resolver_returns_protected_disk :
    protectedOf (disk_associations qC1) = ["sdh"] ∧
    delete_devices_resolution qC1 false ["sdg"] [] =
      Except.ok ⟨["sdg", "sdi", "sdj", "sdh"], ["testvol2"], []⟩ :=
  ⟨rfl, rfl⟩

/-- C2 counterexample: with `testvol2` = {sdg, sdh, sdi, sdj} in the map
and `testvol2` protected, requesting the member disk `sdg` alone returns an
empty final alias set — `testvol2` is **not** present, contrary to the
claim's unconditional "A is present in the final alias set". -/
theorem sibling_expansion_drops_protected_alias :
    resolve dgEx ["testvol2"] false ["sdg"] [] =
      Except.ok ⟨["sdg", "sdh", "sdi", "sdj"], [], []⟩ :=
  rfl

/-- C2 amended: for every disk D that is a member of alias A in the
relationship map, **where A is not in the protected set**, requesting D
alone yields a final disk set that is a superset of A's full member set,
and A is present in the final alias set. -/
theorem sibling_expansion_completeness :
    ∀ (dg : DiskMap) (protSet : List String) (v : Bool) (D A : String)
      (mem : List String),
    lookupMap dg A = some mem → D ∈ mem → A ∉ protSet →
    ∃ r, resolve dg protSet v [D] [] = Except.ok r ∧
      (∀ x ∈ mem, x ∈ r.disks) ∧ A ∈ r.aliases := by
  intro dg protSet v D A mem hlook hD hA
  have hpair : (A, mem) ∈ dg := lookupMap_mem dg A mem hlook
  have hhit := expandSiblings_hit dg v [D] ([D], [], []) D (A, mem)
    (List.mem_singleton.mpr rfl) hpair hD
  have hA1 : A ∈ (resolveExpanded dg v [D] []).2.1 := hhit.1
  have hA2 : A ∈ (resolvePostFilter dg protSet v [D] []).2.1 := by
    unfold resolvePostFilter
    exact filterProtected_aliases_of_not_prot protSet v _ _ _ A hA1 hA
  have htot : ∀ a ∈ (resolvePostFilter dg protSet v [D] []).2.1,
      (lookupMap dg a).isSome = true := by
    intro a ha
    have ha1 : a ∈ (resolveExpanded dg v [D] []).2.1 := by
      unfold resolvePostFilter at ha
      exact filterProtected_aliases_subset protSet v _ _ _ a ha
    rcases expandSiblings_keys dg v [D] ([D], [], []) a ha1 with h0 | ⟨p, hp, he⟩
    · simp at h0
    · obtain ⟨k, vv⟩ := p
      cases he
      exact lookupMap_isSome_of_key dg _ vv hp
  obtain ⟨d3, hm⟩ := materialize_total dg _
    (resolvePostFilter dg protSet v [D] []).1 htot
  refine ⟨⟨d3, (resolvePostFilter dg protSet v [D] []).2.1,
    (resolvePostFilter dg protSet v [D] []).2.2⟩, ?_, ?_, hA2⟩
  · unfold resolve
    rw [hm]
  · intro x hx
    obtain ⟨mem2, hl2, hx2⟩ := materialize_lookup dg _ _ _ hm A hA2
    have he2 : mem2 = mem := by
      have h2 := hlook.symm.trans hl2
      injection h2 with h3
      exact h3.symm
    exact hx2 x (by rw [he2]; exact hx)

/-- C2 amended, witness: requesting `sdg` with nothing protected puts
`testvol2` in the final alias set. -/
theorem sibling_expansion_completeness_witness :
    "testvol2" ∈ aliasesOf (resolve dgEx [] false ["sdg"] []) := by
  obtain ⟨r, hr, _, hmem⟩ := sibling_expansion_completeness dgEx [] false
    "sdg" "testvol2" ["sdg", "sdh", "sdi", "sdj"] rfl (by decide) (by decide)
  rw [hr] at *
  simpa [aliasesOf, hr] using hmem

/-- C3: when the blocked set (protected ∩ requested disks ∪ protected ∩
requested aliases) is non-empty, the protection check emits the refusal
warning listing exactly the blocked identifiers (when verbose) and removes
every blocked identifier from both request sets; and on the concrete
scenario "request the mounted alias testvol1" the Resolver continues and
returns empty final disk and alias sets with the warning naming
`testvol1`. -/
theorem protection_check_warns_and_continues :
    (∀ (protSet ds as : List String) (ws : List Warning),
      ¬(setUnion (setInter protSet ds) (setInter protSet as)).isEmpty →
      Warning.blocked (setUnion (setInter protSet ds) (setInter protSet as)) ∈
        (filterProtected protSet true ds as ws).2.2 ∧
      ∀ x ∈ setUnion (setInter protSet ds) (setInter protSet as),
        x ∉ (filterProtected protSet true ds as ws).1 ∧
        x ∉ (filterProtected protSet true ds as ws).2.1) ∧
    resolve dgC3 protC3 true [] ["testvol1"] =
      Except.ok ⟨[], [], [Warning.blocked ["testvol1"]]⟩ := by
  constructor
  · intro protSet ds as ws hb
    exact ⟨filterProtected_warns protSet ds as ws hb,
      fun x hx => filterProtected_removes protSet true ds as ws x hx⟩
  · rfl

/-- C3 witness: the blocked alias `testvol1` is removed from the requested
alias set by the protection check. -/
theorem protection_check_warns_and_continues_witness :
    "testvol1" ∉ (filterProtected protC3 true [] ["testvol1"] []).2.1 :=
  ((protection_check_warns_and_continues.1 protC3 [] ["testvol1"] []
    (by decide)).2 "testvol1" (by decide)).2

/-- C4: a mounted source matching `/dev/mapper/<alias>` makes the mount
loop add the alias to the protected set and, when the alias is a key of
the dictionary, union its member disks in as well; and on the host `qC4`
(`testvol2` = {sdg, sdi, sdh, sdj} with `/dev/mapper/testvol2` mounted)
the collector's protected set is exactly {testvol2, sdg, sdi, sdh, sdj}. -/
theorem mapper_mount_protection :
    (∀ (m : DiskMap) (line : List Char) (al : String),
      matchMounted (stripChars line) = some (Sum.inr al) →
      al ∈ getD (processMount m line) "protected" ∧
      (al ≠ "protected" → ∀ mem, lookupMap m al = some mem →
        ∀ x ∈ mem, x ∈ getD (processMount m line) "protected")) ∧
    protectedOf (disk_associations qC4) =
      ["testvol2", "sdg", "sdi", "sdh", "sdj"] := by
  constructor
  · intro m line al hmatch
    simp only [processMount, hmatch]
    by_cases hk : mapHasKey
        (dictInsert m "protected" (setAdd (getD m "protected") al)) al = true
    · rw [if_pos hk]
      rw [getD_dictInsert_self]
      constructor
      · exact mem_setUnion.mpr (Or.inl
          (by rw [getD_dictInsert_self]; exact mem_setAdd.mpr (Or.inr rfl)))
      · intro hne mem hmem x hx
        have hval : getD (dictInsert m "protected"
            (setAdd (getD m "protected") al)) al = mem := by
          rw [getD_dictInsert_other m "protected" al _ hne]
          simp [getD, hmem]
        rw [hval]
        exact mem_setUnion.mpr (Or.inr hx)
    · rw [if_neg hk]
      rw [getD_dictInsert_self]
      constructor
      · exact mem_setAdd.mpr (Or.inr rfl)
      · intro hne mem hmem x hx
        exfalso
        apply hk
        have : lookupMap (dictInsert m "protected"
            (setAdd (getD m "protected") al)) al = some mem := by
          rw [lookupMap_dictInsert_other m "protected" al _ hne]
          exact hmem
        simp [mapHasKey, this]
  · rfl

/-- C4 witness: with `testvol2` mapped to {sdg} and the mount line
`/dev/mapper/testvol2`, the member disk `sdg` lands in the protected
set. -/
theorem mapper_mount_protection_witness :
    "sdg" ∈ getD (processMount [("testvol2", ["sdg"])]
      "/dev/mapper/testvol2".data) "protected" :=
  (mapper_mount_protection.1 [("testvol2", ["sdg"])]
    "/dev/mapper/testvol2".data "testvol2" rfl).2 (by decide) ["sdg"] rfl
    "sdg" (by decide)

/-- C5 counterexample: the claim's universal "for every mounted source that
is a bare device path with a trailing partition number, the base device
name is added to the ProtectedSet" fails at the mount source
`/dev/mappers1` (bare device `mappers`, partition `1`): the `(?!mapper)`
lookahead kills the bare-device branch, `/dev/mapper/` fails to match too,
so the mount regex does not match at all, the collector's protected set
stays empty, and in particular the base name `mappers` is **not**
protected. -/
theorem mapper_prefixed_device_unprotected :
    matchMounted (stripChars "/dev/mappers1".data) = none ∧
    protectedOf (disk_associations qC5bad) = [] ∧
    "mappers" ∉ protectedOf (disk_associations qC5bad) :=
  ⟨rfl, rfl, by decide⟩

/-- C5 amended: a mounted source `/dev/<name><num>` (letters then a
trailing partition number, not under `mapper/`), where the name (with its
digit suffix) does not begin with the six characters `mapper`, makes the
mount loop add the base device name with the numeric suffix stripped to
the protected set, and it does not add the partition name; and on the host
`qC5` (only `/dev/sda2` mounted) the collector's protected set is exactly
{sda}.  (A bare device whose name begins with `mapper` matches neither
regex branch and is not protected at all.) -/
theorem partition_mount_protection :
    (∀ (m : DiskMap) (name num : List Char),
      name ≠ [] → (∀ c ∈ name, isAlphaCh c = true) →
      num ≠ [] → (∀ c ∈ num, isDigitCh c = true) →
      (name ++ num).take 6 ≠ "mapper".data →
      String.mk name ∈
        getD (processMount m ("/dev/".data ++ (name ++ num))) "protected" ∧
      (String.mk (name ++ num) ∉ getD m "protected" →
        String.mk (name ++ num) ∉
          getD (processMount m ("/dev/".data ++ (name ++ num))) "protected")) ∧
    protectedOf (disk_associations qC5) = ["sda"] := by
  constructor
  · intro m name num hne hal hnume hnum hmap
    have hstrip : stripChars ("/dev/".data ++ (name ++ num)) =
        "/dev/".data ++ (name ++ num) := by
      apply stripChars_id
      intro c hc
      rcases List.mem_append.mp hc with h5 | hnn
      · exact (by decide : ∀ c ∈ "/dev/".data, isSpaceCh c = false) c h5
      · rcases List.mem_append.mp hnn with h1 | h2
        · exact alpha_not_space (hal c h1)
        · exact digit_not_space (hnum c h2)
    have hmatch : matchMounted (stripChars ("/dev/".data ++ (name ++ num))) =
        some (Sum.inl (String.mk name)) := by
      rw [hstrip]
      unfold matchMounted
      rw [List.take_left' (show ("/dev/".data).length = 5 from rfl)]
      rw [if_pos rfl]
      rw [List.drop_left' (show ("/dev/".data).length = 5 from rfl)]
      rw [if_neg hmap]
      rw [takeWhile_app name num hal (fun c hc => digit_not_alpha (hnum c hc))]
      rw [if_neg hne]
    simp only [processMount, hmatch]
    rw [getD_dictInsert_self]
    constructor
    · exact mem_setAdd.mpr (Or.inr rfl)
    · intro hold hc
      rcases mem_setAdd.mp hc with h0 | h0
      · exact hold h0
      · have hdata : name ++ num = name := by
          simpa using congrArg String.data h0
        have : name ++ num = name ++ [] := by simpa using hdata
        exact hnume (List.append_cancel_left this)
  · rfl

/-- C5 witness: the mount line `/dev/sda2` protects `sda` and not
`sda2`. -/
theorem partition_mount_protection_witness :
    String.mk "sda".data ∈
      getD (processMount [] ("/dev/".data ++ ("sda".data ++ "2".data)))
        "protected" :=
  (partition_mount_protection.1 [] "sda".data "2".data (by decide) (by decide)
    (by decide) (by decide) (by decide)).1

/-- C6 counterexample: when the multipath tool is absent (its invocation
raises `OSError`, which the script's `except CalledProcessError` does not
catch), the collector does **not** treat the query as an empty result — it
fails instead of returning a map built from the remaining queries. -/
theorem collector_fails_when_tool_absent :
    disk_associations qAbsent = Except.error () := rfl

/-- C6 amended: a query that returns an error (non-zero exit, i.e.
`CalledProcessError`) is treated as an empty result and collection
continues — normalizing every such outcome to empty output leaves the
collector's result unchanged, and when no query tool is absent the
collector always returns a map.  (A query whose tool is absent raises an
uncaught `OSError` and is fatal.) -/
theorem collector_treats_exit_error_as_empty :
    (∀ q : HostQueries,
      disk_associations (normalizeQueries q) = disk_associations q) ∧
    (∀ q : HostQueries, q.multipathList ≠ QueryResult.toolAbsent →
      (∀ d, q.multipathDetail d ≠ QueryResult.toolAbsent) →
      q.mounts ≠ QueryResult.toolAbsent → q.pvsList ≠ QueryResult.toolAbsent →
      ∃ m, disk_associations q = Except.ok m) := by
  constructor
  · intro q
    unfold disk_associations normalizeQueries
    simp only [queryOutput_normalize]
  · intro q h1 h2 h3 h4
    obtain ⟨s1, e1⟩ := queryOutput_ok_of_ne h1
    obtain ⟨s3, e3⟩ := queryOutput_ok_of_ne h3
    obtain ⟨s4, e4⟩ := queryOutput_ok_of_ne h4
    have hd : ∀ dev, ∃ s, queryOutput (q.multipathDetail dev) = Except.ok s :=
      fun dev => queryOutput_ok_of_ne (h2 dev)
    obtain ⟨m0, hm0⟩ := collectAliases_total
      (fun d => queryOutput (q.multipathDetail d)) hd (splitlines s1) []
    refine ⟨(splitlines s4).foldl processPv
      ((splitlines s3).foldl processMount (dictInsert m0 "protected" [])), ?_⟩
    simp only [disk_associations, disk_associationsAux, e1, hm0, e3, e4]

/-- C6 witness: a host whose every query exits non-zero still yields a
collector result. -/
theorem collector_treats_exit_error_as_empty_witness :
    collectorOk (disk_associations qEmptyHost) = true := by
  obtain ⟨m, hm⟩ := collector_treats_exit_error_as_empty.2 qEmptyHost
    (by decide) (fun d h => QueryResult.noConfusion h) (by decide) (by decide)
  rw [hm]
  rfl

/-- C7 counterexample: a failed control-file write for disk `sdb` raises an
uncaught exception that aborts the run — the remaining disk `sdc` is not
processed, contrary to the claim that every device-action failure is
non-fatal with remaining devices still processed. -/
theorem write_failure_aborts_deletion :
    flushAndDelete envWriteFail [] ["sda", "sdb", "sdc"] =
      Except.error "sdb" := rfl

/-- C7 amended: a multipath-flush failure is non-fatal — every alias is
attempted and failures are only reported — and as long as every disk's two
control-file writes succeed, every disk in the resolved set is processed;
a failed control-file write, by contrast, aborts the run. -/
theorem flush_failure_nonfatal :
    ∀ (env : ExecEnv) (als ds : List String),
    (∀ d ∈ ds, env.writeState d = true ∧ env.writeDelete d = true) →
    flushAndDelete env als ds = Except.ok (flushAliases env als, ds) := by
  intro env als ds h
  unfold flushAndDelete
  rw [deleteDisks_total env ds [] h]
  simp

/-- C7 witness: flushing fails for `mpA` yet both aliases are attempted,
the failure is reported, and both disks are still processed. -/
theorem flush_failure_nonfatal_witness :
    flushAndDelete envFlushFail ["mpA", "mpB"] ["sda", "sdb"] =
      Except.ok (["mpA"], ["sda", "sdb"]) := by
  rw [flush_failure_nonfatal envFlushFail ["mpA", "mpB"] ["sda", "sdb"]
    (by decide)]
  rfl

/-- C8: whenever the Resolver returns a ResolvedDeletionSet, every alias in
the returned alias set has its full member set from the relationship map
contained in the returned disk set. -/
theorem materialization_covers_aliases :
    ∀ (dg : DiskMap) (protSet : List String) (v : Bool) (ds as : List String)
      (r : Resolved),
    resolve dg protSet v ds as = Except.ok r →
    ∀ a ∈ r.aliases, ∃ mem, lookupMap dg a = some mem ∧
      ∀ x ∈ mem, x ∈ r.disks := by
  intro dg protSet v ds as r h a ha
  unfold resolve at h
  cases hm : materializeAliases dg (resolvePostFilter dg protSet v ds as).2.1
      (resolvePostFilter dg protSet v ds as).1 with
  | ok d3 =>
      rw [hm] at h
      cases h
      exact materialize_lookup dg _ _ _ hm a ha
  | error e =>
      rw [hm] at h
      cases h

/-- C8 witness: resolving the request for alias `testvol2` materializes its
member `sdh` into the final disk set. -/
theorem materialization_covers_aliases_witness :
    "sdh" ∈ disksOf (resolve dgEx [] false [] ["testvol2"]) := by
  have hres : resolve dgEx [] false [] ["testvol2"] =
      Except.ok ⟨["sdg", "sdh", "sdi", "sdj"], ["testvol2"], []⟩ := rfl
  obtain ⟨mem, hl, hx⟩ := materialization_covers_aliases dgEx [] false []
    ["testvol2"] _ hres "testvol2" (by decide)
  have hmem : mem = ["sdg", "sdh", "sdi", "sdj"] := by
    have h2 : some ["sdg", "sdh", "sdi", "sdj"] = some mem :=
      (rfl : lookupMap dgEx "testvol2" = some ["sdg", "sdh", "sdi", "sdj"]).symm.trans hl
    injection h2 with h3
    exact h3.symm
  rw [hres]
  exact hx "sdh" (by rw [hmem]; decide)

/-- C9: the alias-to-member materialization looks each surviving alias up
without a guard, so resolution is total exactly under the precondition
that every alias in the post-filter alias set is a key of the relationship
map; requesting the alias `ghost`, which is not a key of the map and not
protected, makes resolution fail with the unhandled lookup error instead
of returning a ResolvedDeletionSet. -/
theorem resolver_keyerror_on_unknown_alias :
    (∀ (dg : DiskMap) (protSet : List String) (v : Bool) (ds as : List String),
      (∀ a ∈ (resolvePostFilter dg protSet v ds as).2.1,
        (lookupMap dg a).isSome = true) →
      ∃ r, resolve dg protSet v ds as = Except.ok r) ∧
    resolve dgEx [] false [] ["ghost"] = Except.error () := by
  constructor
  · intro dg protSet v ds as htot
    obtain ⟨d3, hm⟩ := materialize_total dg _
      (resolvePostFilter dg protSet v ds as).1 htot
    refine ⟨⟨d3, (resolvePostFilter dg protSet v ds as).2.1,
      (resolvePostFilter dg protSet v ds as).2.2⟩, ?_⟩
    unfold resolve
    rw [hm]
  · rfl

/-- C9 witness: with every surviving alias a key of the map, resolution
returns a ResolvedDeletionSet. -/
theorem resolver_keyerror_on_unknown_alias_witness :
    resolveOk (resolve dgEx [] false [] ["testvol2"]) = true := by
  obtain ⟨r, hr⟩ := resolver_keyerror_on_unknown_alias.1 dgEx [] false []
    ["testvol2"] (by decide)
  rw [hr]
  rfl

/-- C10: on a host whose multipath alias is literally named `protected`,
the first phase collects its member set {sdx, sdy}, the reserved
`disk_mappings['protected'] = set()` assignment then overwrites that entry,
the final dictionary carries only the mount-derived protected set under
that key, and the relationship map the Resolver sees (after popping
`protected`) is empty — so the alias's membership is lost and the map's
keys are not the aliases known to multipath. -/
theorem reserved_key_collision :
    collectAliases (fun d => queryOutput (qC10.multipathDetail d))
      (splitlines "protected\n".data) [] =
      Except.ok [("protected", ["sdx", "sdy"])] ∧
    disk_associations qC10 = Except.ok [("protected", ["sda"])] ∧
    resolverMap (disk_associations qC10) = [] :=
  ⟨rfl, rfl, rfl⟩
